import Mathlib

/-
Shallow embedding of the Brainfuck interpreter in src/interpreter.c.

The C program is a two-phase interpreter: `compile_tree` parses the source
byte stream into an AST (nodes with a `type`, an optional `child` chain for
loop bodies, and a `next` sibling link), and `execute_tree` walks the AST
against a 65535-cell unsigned-char tape with an unsigned pointer that is
wrapped modulo TAPE_SIZE on every move.

Embedding conventions:
  * sibling `next` chains become Lean lists (`List Node`), and a loop node
    carries its `child` chain as a `List Node` body;
  * the tape is a function `Nat → Nat` whose meaningful values are bytes
    (kept below 256 by the executor's updates, which mirror unsigned-char
    overflow with an explicit `% 256`);
  * the pointer is a `Nat`, updated exactly as the C code updates the
    `unsigned int` pointer: `(ptr + 1) % TAPE_SIZE` and
    `(ptr + TAPE_SIZE - 1) % TAPE_SIZE` (no intermediate overflow occurs in
    the C because the pointer stays below TAPE_SIZE);
  * `getchar`/`putchar` become explicit input and output byte lists;
  * the C `while (data[*ptr]) execute_tree(node->child, ...)` loop may not
    terminate, so the executor takes a fuel argument and returns `none`
    when the fuel is exhausted before the run finishes;
  * `compile_tree` returns `Except ParseError (List Node)`; the C function
    signals the three syntax errors by printing a distinguishing message
    and returning NULL, which `ParseError` records.  The C `main` only sees
    the NULL pointer, which conflates a parse error with an empty tree;
    `main_run` reproduces exactly that conflation.
-/

namespace BF

/-- Tape size constant, from `#define TAPE_SIZE 65535`. -/
def TAPE_SIZE : Nat := 65535

/-- Maximum loop nesting depth, from `#define MAX_LOOP_DEPTH 512`. -/
def MAX_LOOP_DEPTH : Nat := 512

/-- AST node, from the C `NodeType` enum and `struct Node`.  A non-loop
node has a NULL `child`, so only the loop constructor carries a body; the
`next` sibling chain of the C struct is represented by `List Node`. -/
inductive Node where
  | NODE_INC_PTR
  | NODE_DEC_PTR
  | NODE_INC_VAL
  | NODE_DEC_VAL
  | NODE_OUT
  | NODE_IN
  | NODE_LOOP (child : List Node)

/-- Parse failures of `compile_tree`, distinguished in the C code by the
three stderr messages (`loop nesting too deep`, `unmatched ']'`,
`unmatched '['`), all of which make `compile_tree` free the partial tree
and return NULL. -/
inductive ParseError where
  | NestingTooDeep
  | UnmatchedClose
  | UnmatchedOpen

/-- Parser state carried across the scan of `compile_tree`: `cur` is the
block currently being appended to (in reverse order of appending), and
`outer` holds, innermost first, the partially built parent blocks of each
currently-open loop.  `outer.length` is exactly the C variable `depth`,
and the C `loop_stack` of open loop nodes is represented positionally:
the loop open at depth `d` will be appended to the block stored in
`outer` once its `]` is read. -/
structure PState where
  cur : List Node
  outer : List (List Node)

/-- Initial parser state: empty top-level block, no open loops
(`depth = 0`). -/
def initPState : PState := ⟨[], []⟩

/-- One iteration of the `while ((c = getc(fp)) != EOF)` loop of
`compile_tree`: dispatch on the character exactly as the C `switch` does.
A `[` is rejected with `NestingTooDeep` when `depth >= MAX_LOOP_DEPTH`
before the push; a `]` at depth 0 is rejected with `UnmatchedClose`,
otherwise it closes the innermost open loop (the C code just does
`depth--`; here the finished body is wrapped into the loop node that the
C code allocated when it saw the `[`).  Every other byte is a comment and
leaves the state unchanged. -/
def scan1 (c : Char) (st : PState) : Except ParseError PState :=
  if c = '>' then Except.ok ⟨Node.NODE_INC_PTR :: st.cur, st.outer⟩
  else if c = '<' then Except.ok ⟨Node.NODE_DEC_PTR :: st.cur, st.outer⟩
  else if c = '+' then Except.ok ⟨Node.NODE_INC_VAL :: st.cur, st.outer⟩
  else if c = '-' then Except.ok ⟨Node.NODE_DEC_VAL :: st.cur, st.outer⟩
  else if c = '.' then Except.ok ⟨Node.NODE_OUT :: st.cur, st.outer⟩
  else if c = ',' then Except.ok ⟨Node.NODE_IN :: st.cur, st.outer⟩
  else if c = '[' then
    if MAX_LOOP_DEPTH ≤ st.outer.length then Except.error ParseError.NestingTooDeep
    else Except.ok ⟨[], st.cur :: st.outer⟩
  else if c = ']' then
    match st.outer with
    | [] => Except.error ParseError.UnmatchedClose
    | p :: rest => Except.ok ⟨Node.NODE_LOOP st.cur.reverse :: p, rest⟩
  else Except.ok st

/-- The scan loop of `compile_tree`: consume the source left to right,
aborting at the first error, and return the parser state reached at end
of input. -/
def scanList : List Char → PState → Except ParseError PState
  | [], st => Except.ok st
  | c :: cs, st =>
    match scan1 c st with
    | Except.error e => Except.error e
    | Except.ok st1 => scanList cs st1

/-- The whole of `compile_tree`: run the scan, then apply the end-of-input
check `if (depth != 0)` which reports `UnmatchedOpen`; on success the
top-level sibling chain (accumulated in reverse) is returned. -/
def compile_tree (src : List Char) : Except ParseError (List Node) :=
  match scanList src initPState with
  | Except.error e => Except.error e
  | Except.ok st =>
    match st.outer with
    | [] => Except.ok st.cur.reverse
    | _ :: _ => Except.error ParseError.UnmatchedOpen

/-- Whether a character is one of the 8 significant (trigger) characters
of the language; every other byte is a comment in `compile_tree`. -/
def isTrigger (c : Char) : Bool :=
  c == '>' || c == '<' || c == '+' || c == '-' ||
  c == '.' || c == ',' || c == '[' || c == ']'

/-- Number of allocated C nodes represented inside a finished node list:
every node counts 1 (one `malloc` in `new_node`), and a loop node also
contains the nodes of its body. -/
def nodeCountList : List Node → Nat
  | [] => 0
  | Node.NODE_LOOP child :: rest => 1 + nodeCountList child + nodeCountList rest
  | _ :: rest => 1 + nodeCountList rest

/-- Number of C nodes allocated so far in a parser state: the nodes of the
current block, the nodes of every suspended parent block, and the one loop
node allocated (by the `case '['` branch) for each currently-open loop. -/
def allocCount (st : PState) : Nat :=
  nodeCountList st.cur + (st.outer.map nodeCountList).sum + st.outer.length

/-- Pointwise update of the tape, as the C stores `data[*ptr] = v`. -/
def updateCell (f : Nat → Nat) (i v : Nat) : Nat → Nat :=
  fun j => if j = i then v else f j

/-- Runtime state of `execute_tree`: the tape `data`, the pointer `ptr`,
and the remaining input / produced output byte streams of
`getchar`/`putchar`. -/
structure ExecState where
  data : Nat → Nat
  ptr : Nat
  inp : List Nat
  out : List Nat

/-- The executor `execute_tree`, walking a sibling chain left to right.
Each case mirrors the corresponding `case` of the C `switch`:
pointer moves wrap modulo `TAPE_SIZE`, cell updates wrap modulo 256
(unsigned char), `NODE_OUT` appends the current cell to the output,
`NODE_IN` consumes one input byte (storing 0 at end of stream, as the C
`(ch == EOF) ? 0 : (unsigned char)ch` does), and `NODE_LOOP` re-reads the
current cell before every repetition of its body, exactly like
`while (data[*ptr]) execute_tree(node->child, data, ptr)`.
The extra fuel argument bounds the depth of this recursion; `none` means
the run did not finish within the given fuel (the C code simply keeps
running). -/
def execute_tree : Nat → List Node → ExecState → Option ExecState
  | 0, _, _ => none
  | _ + 1, [], s => some s
  | fuel + 1, node :: rest, s =>
    match node with
    | Node.NODE_INC_PTR =>
      execute_tree fuel rest { s with ptr := (s.ptr + 1) % TAPE_SIZE }
    | Node.NODE_DEC_PTR =>
      execute_tree fuel rest { s with ptr := (s.ptr + TAPE_SIZE - 1) % TAPE_SIZE }
    | Node.NODE_INC_VAL =>
      execute_tree fuel rest
        { s with data := updateCell s.data s.ptr ((s.data s.ptr + 1) % 256) }
    | Node.NODE_DEC_VAL =>
      execute_tree fuel rest
        { s with data := updateCell s.data s.ptr ((s.data s.ptr + 255) % 256) }
    | Node.NODE_OUT =>
      execute_tree fuel rest { s with out := s.out ++ [s.data s.ptr] }
    | Node.NODE_IN =>
      match s.inp with
      | [] => execute_tree fuel rest { s with data := updateCell s.data s.ptr 0 }
      | b :: bs =>
        execute_tree fuel rest
          { s with data := updateCell s.data s.ptr (b % 256), inp := bs }
    | Node.NODE_LOOP child =>
      if s.data s.ptr = 0 then
        execute_tree fuel rest s
      else
        match execute_tree fuel child s with
        | none => none
        | some s1 => execute_tree fuel (Node.NODE_LOOP child :: rest) s1

/-- Runtime state at the start of `main`'s execution phase: the tape is
`calloc`ed to all zeroes and `ptr` is 0. -/
def initExecState (inp : List Nat) : ExecState := ⟨fun _ => 0, 0, inp, []⟩

/-- The driver `main`, after the file has been read: parse, then check
`if (!program) return 1;` — note that `compile_tree` returns NULL both on
a parse error and when the source contained no trigger characters, so an
empty tree is also rejected with exit code 1 — then run the program on an
all-zero tape and exit 0.  The result pairs the exit code with the bytes
written to standard output; `none` means the run did not finish within
`fuel`. -/
def main_run (src : List Char) (inp : List Nat) (fuel : Nat) :
    Option (Nat × List Nat) :=
  match compile_tree src with
  | Except.error _ => some (1, [])
  | Except.ok [] => some (1, [])
  | Except.ok prog =>
    match execute_tree fuel prog (initExecState inp) with
    | none => none
    | some s => some (0, s.out)

/-- Concrete runtime state (zero tape, pointer 5) used to instantiate the
universally quantified theorems below. -/
def S5 : ExecState := ⟨fun _ => 0, 5, [], []⟩

/-- Concrete runtime state with every cell 7, pointer 3 and exhausted
input. -/
def SEof : ExecState := ⟨fun _ => 7, 3, [], []⟩

/-- Concrete runtime state with every cell 7, pointer 3 and one pending
input byte 65. -/
def SIn : ExecState := ⟨fun _ => 7, 3, [65], []⟩

/- ------------------------------------------------------------------
Helper lemmas about the tape update function.
------------------------------------------------------------------ -/

theorem updateCell_read (f : Nat → Nat) (i v : Nat) : updateCell f i v i = v := by
  simp [updateCell]

theorem updateCell_same (f : Nat → Nat) (i a b : Nat) :
    updateCell (updateCell f i a) i b = updateCell f i b := by
  funext j
  by_cases h : j = i <;> simp [updateCell, h]

theorem updateCell_self (f : Nat → Nat) (i : Nat) :
    updateCell f i (f i) = f := by
  funext j
  by_cases h : j = i <;> simp [updateCell, h]

/- ------------------------------------------------------------------
Helper lemmas about the executor.
------------------------------------------------------------------ -/

/-- Running `n` consecutive `>` nodes adds `n` to the pointer modulo
`TAPE_SIZE` and changes nothing else. -/
theorem exec_replicate_incptr :
    ∀ (n fuel : Nat) (s : ExecState), n < fuel → s.ptr < TAPE_SIZE →
      execute_tree fuel (List.replicate n Node.NODE_INC_PTR) s =
        some { s with ptr := (s.ptr + n) % TAPE_SIZE } := by
  intro n
  induction n with
  | zero =>
    intro fuel s hf hp
    match fuel, hf with
    | f + 1, _ =>
      show some s = _
      rw [Nat.add_zero, Nat.mod_eq_of_lt hp]
  | succ n ih =>
    intro fuel s hf hp
    match fuel, hf with
    | f + 1, hf =>
      have hf' : n < f := Nat.lt_of_succ_lt_succ hf
      have hp1 : (s.ptr + 1) % TAPE_SIZE < TAPE_SIZE := Nat.mod_lt _ (by decide)
      rw [List.replicate_succ]
      show execute_tree f (List.replicate n Node.NODE_INC_PTR)
          { s with ptr := (s.ptr + 1) % TAPE_SIZE } = _
      rw [ih f _ hf' hp1]
      have : ((s.ptr + 1) % TAPE_SIZE + n) % TAPE_SIZE =
          (s.ptr + (n + 1)) % TAPE_SIZE := by
        rw [Nat.mod_add_mod]
        congr 1
        omega
      simp only [this]

/-- Running `n` consecutive `+` nodes adds `n` to the current cell modulo
256 and changes nothing else. -/
theorem exec_replicate_incval :
    ∀ (n fuel : Nat) (s : ExecState), n < fuel → s.data s.ptr < 256 →
      execute_tree fuel (List.replicate n Node.NODE_INC_VAL) s =
        some { s with
               data := updateCell s.data s.ptr ((s.data s.ptr + n) % 256) } := by
  intro n
  induction n with
  | zero =>
    intro fuel s hf hv
    match fuel, hf with
    | f + 1, _ =>
      show some s = _
      rw [Nat.add_zero, Nat.mod_eq_of_lt hv, updateCell_self]
  | succ n ih =>
    intro fuel s hf hv
    match fuel, hf with
    | f + 1, hf =>
      have hf' : n < f := Nat.lt_of_succ_lt_succ hf
      rw [List.replicate_succ]
      show execute_tree f (List.replicate n Node.NODE_INC_VAL)
          { s with
            data := updateCell s.data s.ptr ((s.data s.ptr + 1) % 256) } = _
      have hv1 : updateCell s.data s.ptr ((s.data s.ptr + 1) % 256) s.ptr < 256 := by
        rw [updateCell_read]
        exact Nat.mod_lt _ (by decide)
      rw [ih f _ hf' hv1]
      have hread : updateCell s.data s.ptr ((s.data s.ptr + 1) % 256) s.ptr =
          (s.data s.ptr + 1) % 256 := updateCell_read _ _ _
      simp only [hread, updateCell_same, Nat.mod_add_mod]
      have : (s.data s.ptr + 1 + n) % 256 = (s.data s.ptr + (n + 1)) % 256 := by
        congr 1
        omega
      simp only [this]

/-- Pointer-bound preservation: executing any node list from a state whose
pointer is a valid tape index yields a state whose pointer is a valid tape
index. -/
theorem execute_tree_ptr_lt :
    ∀ (fuel : Nat) (prog : List Node) (s t : ExecState),
      s.ptr < TAPE_SIZE → execute_tree fuel prog s = some t →
        t.ptr < TAPE_SIZE := by
  intro fuel
  induction fuel with
  | zero =>
    intro prog s t hp he
    exact absurd he (by simp [execute_tree])
  | succ f ih =>
    intro prog s t hp he
    cases prog with
    | nil =>
      have hst : s = t := by
        simpa [execute_tree] using he
      exact hst ▸ hp
    | cons node rest =>
      cases node with
      | NODE_INC_PTR =>
        refine ih rest _ t ?_ he
        exact Nat.mod_lt _ (by decide)
      | NODE_DEC_PTR =>
        refine ih rest _ t ?_ he
        exact Nat.mod_lt _ (by decide)
      | NODE_INC_VAL =>
        refine ih rest _ t ?_ he
        exact hp
      | NODE_DEC_VAL =>
        refine ih rest _ t ?_ he
        exact hp
      | NODE_OUT =>
        refine ih rest _ t ?_ he
        exact hp
      | NODE_IN =>
        cases hi : s.inp with
        | nil =>
          simp only [execute_tree, hi] at he
          refine ih rest _ t ?_ he
          exact hp
        | cons b bs =>
          simp only [execute_tree, hi] at he
          refine ih rest _ t ?_ he
          exact hp
      | NODE_LOOP child =>
        simp only [execute_tree] at he
        by_cases hz : s.data s.ptr = 0
        · rw [if_pos hz] at he
          exact ih rest s t hp he
        · rw [if_neg hz] at he
          cases hm : execute_tree f child s with
          | none =>
            rw [hm] at he
            exact absurd he (by simp)
          | some s1 =>
            rw [hm] at he
            exact ih _ s1 t (ih child s s1 hp hm) he

/-- Executing the clear loop `[-]` from a cell holding a byte value `v`
terminates within `v + 2` fuel and zeroes exactly that cell. -/
theorem exec_clear_loop :
    ∀ (v : Nat) (s : ExecState), s.data s.ptr = v → v < 256 →
      execute_tree (v + 2) [Node.NODE_LOOP [Node.NODE_DEC_VAL]] s =
        some { s with data := updateCell s.data s.ptr 0 } := by
  intro v
  induction v with
  | zero =>
    intro s hz _
    have h0 : updateCell s.data s.ptr 0 = s.data := by
      rw [← hz, updateCell_self]
    simp only [execute_tree]
    rw [if_pos hz, h0]
  | succ v ih =>
    intro s hz hv
    have hnz : ¬ s.data s.ptr = 0 := by
      rw [hz]
      exact Nat.succ_ne_zero v
    have hbody : execute_tree (v + 2) [Node.NODE_DEC_VAL] s =
        some { s with
               data := updateCell s.data s.ptr ((s.data s.ptr + 255) % 256) } := by
      show execute_tree (v + 1) []
          { s with
            data := updateCell s.data s.ptr ((s.data s.ptr + 255) % 256) } = _
      rfl
    have hcell : updateCell s.data s.ptr ((s.data s.ptr + 255) % 256) s.ptr = v := by
      rw [updateCell_read, hz]
      omega
    have hrec := ih { s with
        data := updateCell s.data s.ptr ((s.data s.ptr + 255) % 256) }
      hcell (by omega)
    show (if s.data s.ptr = 0 then
            execute_tree (v + 2) [] s
          else
            match execute_tree (v + 2) [Node.NODE_DEC_VAL] s with
            | none => none
            | some s1 =>
              execute_tree (v + 2) [Node.NODE_LOOP [Node.NODE_DEC_VAL]] s1) = _
    rw [if_neg hnz, hbody]
    show execute_tree (v + 2) [Node.NODE_LOOP [Node.NODE_DEC_VAL]]
        { s with
          data := updateCell s.data s.ptr ((s.data s.ptr + 255) % 256) } = _
    rw [hrec]
    simp only [updateCell_same]

/- ------------------------------------------------------------------
Claim theorems about the executor, with their witnesses.
------------------------------------------------------------------ -/

/-- C2: for every parsed program and every input stream, execution started
from a pointer that is a valid tape index (in particular from the initial
pointer 0 of `main`) only ever produces pointer values `p` with
`0 ≤ p < TAPE_SIZE = 65535`.  Every intermediate state of a run is the
result of such a call of `execute_tree` on an in-bounds state (the first
conjunct quantifies over all programs and in-bounds start states, hence
also over every sub-execution), and every tape access of the executor is
made at the current pointer, so every tape access is in bounds. -/
theorem C2_pointer_in_bounds :
    (∀ (fuel : Nat) (prog : List Node) (s t : ExecState),
        s.ptr < TAPE_SIZE → execute_tree fuel prog s = some t →
          t.ptr < TAPE_SIZE) ∧
    (∀ (fuel : Nat) (prog : List Node) (inp : List Nat) (t : ExecState),
        execute_tree fuel prog (initExecState inp) = some t →
          t.ptr < TAPE_SIZE) := by
  refine ⟨execute_tree_ptr_lt, ?_⟩
  intro fuel prog inp t he
  refine execute_tree_ptr_lt fuel prog (initExecState inp) t ?_ he
  show (0 : Nat) < TAPE_SIZE
  decide

/-- Witness for C2 at a concrete run: one `>` from pointer 5. -/
theorem C2_pointer_in_bounds_witness :
    ({ S5 with ptr := 6 } : ExecState).ptr < TAPE_SIZE :=
  C2_pointer_in_bounds.1 2 [Node.NODE_INC_PTR] S5 { S5 with ptr := 6 }
    (by decide) rfl

/-- C3: from any valid pointer position, executing exactly
`TAPE_SIZE = 65535` consecutive `>` nodes returns the machine to exactly
the starting state (so in particular the starting pointer), and a single
`>` advances the pointer by one modulo `TAPE_SIZE`. -/
theorem C3_pointer_roundtrip (s : ExecState) (h : s.ptr < TAPE_SIZE) :
    execute_tree (TAPE_SIZE + 1)
        (List.replicate TAPE_SIZE Node.NODE_INC_PTR) s = some s ∧
    execute_tree 2 [Node.NODE_INC_PTR] s =
      some { s with ptr := (s.ptr + 1) % TAPE_SIZE } := by
  constructor
  · rw [exec_replicate_incptr TAPE_SIZE (TAPE_SIZE + 1) s
      (Nat.lt_succ_self _) h]
    rw [Nat.add_mod_right, Nat.mod_eq_of_lt h]
  · rfl

/-- Witness for C3 at the concrete state `S5` (pointer 5). -/
theorem C3_pointer_roundtrip_witness :
    execute_tree (TAPE_SIZE + 1)
        (List.replicate TAPE_SIZE Node.NODE_INC_PTR) S5 = some S5 ∧
    execute_tree 2 [Node.NODE_INC_PTR] S5 =
      some { S5 with ptr := (S5.ptr + 1) % TAPE_SIZE } :=
  C3_pointer_roundtrip S5 (by decide)

/-- C4: from any byte value of the current cell, executing exactly 256
consecutive `+` nodes at the same pointer position returns the machine to
exactly the starting state (so the cell regains its original value), and
single `+` / `-` nodes act on the cell modulo 256. -/
theorem C4_cell_increment_roundtrip (s : ExecState) (h : s.data s.ptr < 256) :
    execute_tree 257 (List.replicate 256 Node.NODE_INC_VAL) s = some s ∧
    execute_tree 2 [Node.NODE_INC_VAL] s =
      some { s with
             data := updateCell s.data s.ptr ((s.data s.ptr + 1) % 256) } ∧
    execute_tree 2 [Node.NODE_DEC_VAL] s =
      some { s with
             data := updateCell s.data s.ptr ((s.data s.ptr + 255) % 256) } := by
  refine ⟨?_, rfl, rfl⟩
  rw [exec_replicate_incval 256 257 s (Nat.lt_succ_self _) h]
  rw [Nat.add_mod_right, Nat.mod_eq_of_lt h, updateCell_self]

/-- Witness for C4 at the concrete state `SEof` (every cell 7). -/
theorem C4_cell_increment_roundtrip_witness :
    execute_tree 257 (List.replicate 256 Node.NODE_INC_VAL) SEof = some SEof ∧
    execute_tree 2 [Node.NODE_INC_VAL] SEof =
      some { SEof with
             data := updateCell SEof.data SEof.ptr ((SEof.data SEof.ptr + 1) % 256) } ∧
    execute_tree 2 [Node.NODE_DEC_VAL] SEof =
      some { SEof with
             data := updateCell SEof.data SEof.ptr ((SEof.data SEof.ptr + 255) % 256) } :=
  C4_cell_increment_roundtrip SEof (by decide)

/-- C5: executing an input node stores 0 into the current cell when the
input stream is exhausted (regardless of the cell's previous value, so
the cell is never left unchanged at end-of-stream), and otherwise stores
the byte read (a value in 0–255) into the current cell, consuming it from
the stream. -/
theorem C5_input_cell (s : ExecState) :
    (s.inp = [] → execute_tree 2 [Node.NODE_IN] s =
        some { s with data := updateCell s.data s.ptr 0 }) ∧
    (∀ b bs, s.inp = b :: bs → b < 256 → execute_tree 2 [Node.NODE_IN] s =
        some { s with data := updateCell s.data s.ptr b, inp := bs }) := by
  constructor
  · intro h
    simp only [execute_tree, h]
  · intro b bs h hb
    simp only [execute_tree, h, Nat.mod_eq_of_lt hb]

/-- Witness for C5 at concrete states: exhausted input over a cell holding
7 (the cell becomes 0), and pending input byte 65 (the cell becomes 65). -/
theorem C5_input_cell_witness :
    execute_tree 2 [Node.NODE_IN] SEof =
      some { SEof with data := updateCell SEof.data SEof.ptr 0 } ∧
    execute_tree 2 [Node.NODE_IN] SIn =
      some { SIn with data := updateCell SIn.data SIn.ptr 65, inp := [] } :=
  ⟨(C5_input_cell SEof).1 rfl, (C5_input_cell SIn).2 65 [] rfl (by decide)⟩

/-- C6: executing the loop program `[-]` from a cell holding byte value
`v` terminates (within `v + 2` fuel) leaving that cell at 0 and every
other component of the state unchanged; the loop re-reads the cell before
every iteration, in particular a loop over a zero cell (for any body)
finishes immediately with the state unchanged. -/
theorem C6_clear_loop_zeroes_cell (s : ExecState) (h : s.data s.ptr < 256) :
    execute_tree (s.data s.ptr + 2) [Node.NODE_LOOP [Node.NODE_DEC_VAL]] s =
      some { s with data := updateCell s.data s.ptr 0 } ∧
    updateCell s.data s.ptr 0 s.ptr = 0 ∧
    (∀ body : List Node, s.data s.ptr = 0 →
        execute_tree 2 [Node.NODE_LOOP body] s = some s) := by
  refine ⟨exec_clear_loop (s.data s.ptr) s rfl h, updateCell_read _ _ _, ?_⟩
  intro body hz
  simp only [execute_tree]
  rw [if_pos hz]

/-- Witness for C6 at the concrete state `SEof` (cell value 7). -/
theorem C6_clear_loop_zeroes_cell_witness :
    execute_tree (SEof.data SEof.ptr + 2)
        [Node.NODE_LOOP [Node.NODE_DEC_VAL]] SEof =
      some { SEof with data := updateCell SEof.data SEof.ptr 0 } ∧
    updateCell SEof.data SEof.ptr 0 SEof.ptr = 0 ∧
    (∀ body : List Node, SEof.data SEof.ptr = 0 →
        execute_tree 2 [Node.NODE_LOOP body] SEof = some SEof) :=
  C6_clear_loop_zeroes_cell SEof (by decide)

/-- C10: a single `>` or `<` node only replaces the pointer (by its
wrapped successor or predecessor); the tape, the input stream and the
output stream of the state are left untouched, as the record updates in
the right-hand sides show. -/
theorem C10_pointer_moves_frame (s : ExecState) :
    execute_tree 2 [Node.NODE_INC_PTR] s =
      some { s with ptr := (s.ptr + 1) % TAPE_SIZE } ∧
    execute_tree 2 [Node.NODE_DEC_PTR] s =
      some { s with ptr := (s.ptr + TAPE_SIZE - 1) % TAPE_SIZE } :=
  ⟨rfl, rfl⟩

/- ------------------------------------------------------------------
Helper lemmas about the parser.
------------------------------------------------------------------ -/

/-- Effect of one scanned character on the open-loop stack: a character
either leaves it unchanged, pushes one entry (a `[` accepted below the
depth limit), or pops one entry (a `]` at positive depth). -/
theorem scan1_outer (c : Char) (st st1 : PState) (h : scan1 c st = Except.ok st1) :
    st1.outer = st.outer ∨
    (st.outer.length < MAX_LOOP_DEPTH ∧ st1.outer = st.cur :: st.outer) ∨
    (∃ p rest, st.outer = p :: rest ∧ st1.outer = rest) := by
  simp only [scan1] at h
  split_ifs at h with h1 h2 h3 h4 h5 h6 h7 h8 h9
  · injection h with h; subst h; exact Or.inl rfl
  · injection h with h; subst h; exact Or.inl rfl
  · injection h with h; subst h; exact Or.inl rfl
  · injection h with h; subst h; exact Or.inl rfl
  · injection h with h; subst h; exact Or.inl rfl
  · injection h with h; subst h; exact Or.inl rfl
  · injection h with h; subst h
    exact Or.inr (Or.inl ⟨Nat.lt_of_not_le h8, rfl⟩)
  · cases houter : st.outer with
    | nil => rw [houter] at h; exact Except.noConfusion h
    | cons p rest =>
      rw [houter] at h
      injection h with h
      subst h
      exact Or.inr (Or.inr ⟨p, rest, rfl, rfl⟩)
  · injection h with h; subst h; exact Or.inl rfl

/-- The scan never drives the nesting depth above `MAX_LOOP_DEPTH`. -/
theorem scanList_depth_le (l : List Char) :
    ∀ st st1 : PState, scanList l st = Except.ok st1 →
      st.outer.length ≤ MAX_LOOP_DEPTH → st1.outer.length ≤ MAX_LOOP_DEPTH := by
  induction l with
  | nil =>
    intro st st1 h hd
    injection h with h
    subst h
    exact hd
  | cons c cs ih =>
    intro st st1 h hd
    simp only [scanList] at h
    cases hs : scan1 c st with
    | error e => rw [hs] at h; exact Except.noConfusion h
    | ok stm =>
      rw [hs] at h
      have hm : stm.outer.length ≤ MAX_LOOP_DEPTH := by
        rcases scan1_outer c st stm hs with ho | ⟨hlt, ho⟩ | ⟨p, rest, ho, ho1⟩
        · rw [ho]; exact hd
        · rw [ho, List.length_cons]; omega
        · rw [ho1]; rw [ho, List.length_cons] at hd; omega
      exact ih stm st1 h hm

/-- The scan processes a concatenation left part first; an error in the
left part aborts the whole scan. -/
theorem scanList_append (a b : List Char) :
    ∀ st : PState,
      scanList (a ++ b) st =
        match scanList a st with
        | Except.error e => Except.error e
        | Except.ok st1 => scanList b st1 := by
  induction a with
  | nil => intro st; rfl
  | cons c cs ih =>
    intro st
    simp only [List.cons_append, scanList]
    cases hs : scan1 c st with
    | error e => rfl
    | ok st1 => exact ih st1

/-- A non-trigger character leaves the parser state unchanged. -/
theorem scan1_comment (c : Char) (st : PState) (h : isTrigger c = false) :
    scan1 c st = Except.ok st := by
  simp only [isTrigger, Bool.or_eq_false_iff, beq_eq_false_iff_ne, ne_eq] at h
  obtain ⟨⟨⟨⟨⟨⟨⟨h1, h2⟩, h3⟩, h4⟩, h5⟩, h6⟩, h7⟩, h8⟩ := h
  simp only [scan1]
  rw [if_neg h1, if_neg h2, if_neg h3, if_neg h4, if_neg h5, if_neg h6,
    if_neg h7, if_neg h8]

/-- A source of non-trigger characters leaves the parser state unchanged. -/
theorem scanList_comment (l : List Char) :
    ∀ st : PState, (∀ c ∈ l, isTrigger c = false) →
      scanList l st = Except.ok st := by
  induction l with
  | nil => intro st _; rfl
  | cons c cs ih =>
    intro st h
    have hc : isTrigger c = false := h c (List.mem_cons_self c cs)
    have hcs : ∀ x ∈ cs, isTrigger x = false :=
      fun x hx => h x (List.mem_cons_of_mem c hx)
    simp only [scanList, scan1_comment c st hc]
    exact ih st hcs

theorem nodeCountList_cons (n : Node) (l : List Node) :
    nodeCountList (n :: l) = nodeCountList [n] + nodeCountList l := by
  cases n <;> simp [nodeCountList]

theorem nodeCountList_append (a b : List Node) :
    nodeCountList (a ++ b) = nodeCountList a + nodeCountList b := by
  induction a with
  | nil => simp [nodeCountList]
  | cons n tl ih =>
    rw [List.cons_append, nodeCountList_cons, ih, nodeCountList_cons n tl]
    omega

theorem nodeCountList_reverse (l : List Node) :
    nodeCountList l.reverse = nodeCountList l := by
  induction l with
  | nil => rfl
  | cons n tl ih =>
    rw [List.reverse_cons, nodeCountList_append, ih, nodeCountList_cons n tl]
    omega

/- ------------------------------------------------------------------
Claim theorems about the parser and the driver, with their witnesses.
------------------------------------------------------------------ -/

/-- C7: whenever the scan has reached a state with `MAX_LOOP_DEPTH = 512`
open loops and the next character is a `[` (a 513th nested unclosed `[`),
parsing fails with `NestingTooDeep`, ignoring the whole remainder of the
source (the tail `post` is arbitrary and never examined), and no tree is
returned; moreover the nesting depth of every state reached by a scan
from the initial state never exceeds `MAX_LOOP_DEPTH`. -/
theorem C7_nesting_too_deep :
    (∀ (pre post : List Char) (st : PState),
        scanList pre initPState = Except.ok st →
        MAX_LOOP_DEPTH ≤ st.outer.length →
        compile_tree (pre ++ '[' :: post) =
          Except.error ParseError.NestingTooDeep) ∧
    (∀ (src : List Char) (st : PState),
        scanList src initPState = Except.ok st →
        st.outer.length ≤ MAX_LOOP_DEPTH) := by
  constructor
  · intro pre post st h hd
    have hs : scan1 '[' st = Except.error ParseError.NestingTooDeep := by
      simp only [scan1]
      rw [if_pos hd]
      rfl
    have hscan : scanList (pre ++ '[' :: post) initPState =
        Except.error ParseError.NestingTooDeep := by
      rw [scanList_append, h]
      simp only [scanList, hs]
    simp only [compile_tree, hscan]
  · intro src st h
    exact scanList_depth_le src initPState st h (by decide)

set_option maxRecDepth 40000 in
/-- Witness for C7: 512 consecutive `[` reach depth 512, and a 513th `[`
is rejected. -/
theorem C7_nesting_too_deep_witness :
    compile_tree (List.replicate MAX_LOOP_DEPTH '[' ++ '[' :: []) =
      Except.error ParseError.NestingTooDeep ∧
    (⟨[], List.replicate MAX_LOOP_DEPTH []⟩ : PState).outer.length ≤
      MAX_LOOP_DEPTH :=
  ⟨C7_nesting_too_deep.1 (List.replicate MAX_LOOP_DEPTH '[') []
      ⟨[], List.replicate MAX_LOOP_DEPTH []⟩ rfl (by decide),
   C7_nesting_too_deep.2 (List.replicate MAX_LOOP_DEPTH '[')
      ⟨[], List.replicate MAX_LOOP_DEPTH []⟩ rfl⟩

/-- C8: whenever the scan of a whole source ends with nonzero nesting
depth (some `[` was never matched by a `]`), `compile_tree` fails with
`UnmatchedOpen` and returns no tree. -/
theorem C8_unmatched_open (src : List Char) (st : PState)
    (h : scanList src initPState = Except.ok st) (hne : st.outer ≠ []) :
    compile_tree src = Except.error ParseError.UnmatchedOpen := by
  cases houter : st.outer with
  | nil => exact absurd houter hne
  | cons p rest => simp only [compile_tree, h, houter]

/-- Witness for C8: the one-character source `[`. -/
theorem C8_unmatched_open_witness :
    compile_tree ['['] = Except.error ParseError.UnmatchedOpen :=
  C8_unmatched_open ['['] ⟨[], [[]]⟩ rfl (List.cons_ne_nil [] [])

/-- C9: a source whose first significant character is `]` (everything
before it is a comment, so it is read at depth 0) fails to parse with
`UnmatchedClose`, no tree being returned and the rest of the source never
being examined; and a `]` read at positive depth only pops the open-loop
stack, allocating no node (the count of allocated nodes in the parser
state is unchanged, whereas every node-creating character increases it). -/
theorem C9_unmatched_close :
    (∀ pre post : List Char,
        (∀ c ∈ pre, isTrigger c = false) →
        compile_tree (pre ++ ']' :: post) =
          Except.error ParseError.UnmatchedClose) ∧
    (∀ (st st1 : PState) (p : List Node) (rest : List (List Node)),
        st.outer = p :: rest →
        scan1 ']' st = Except.ok st1 →
        st1.outer = rest ∧ allocCount st1 = allocCount st) := by
  constructor
  · intro pre post h
    have hscan : scanList (pre ++ ']' :: post) initPState =
        Except.error ParseError.UnmatchedClose := by
      rw [scanList_append, scanList_comment pre initPState h]
      rfl
    simp only [compile_tree, hscan]
  · intro st st1 p rest houter h
    have h1 : scan1 ']' st =
        Except.ok ⟨Node.NODE_LOOP st.cur.reverse :: p, rest⟩ := by
      simp only [scan1]
      rw [houter]
      rfl
    rw [h1] at h
    injection h with h
    subst h
    refine ⟨rfl, ?_⟩
    simp only [allocCount, houter, nodeCountList, nodeCountList_reverse,
      List.map_cons, List.sum_cons, List.length_cons]
    omega

/-- Witness for C9: the source `" ]"`, and a pop step from depth 1. -/
theorem C9_unmatched_close_witness :
    compile_tree [' ', ']'] = Except.error ParseError.UnmatchedClose ∧
    ((⟨[Node.NODE_LOOP []], []⟩ : PState).outer = [] ∧
      allocCount ⟨[Node.NODE_LOOP []], []⟩ = allocCount ⟨[], [[]]⟩) :=
  ⟨C9_unmatched_close.1 [' '] [] (by decide),
   C9_unmatched_close.2 ⟨[], [[]]⟩ ⟨[Node.NODE_LOOP []], []⟩ [] [] rfl rfl⟩

/-- C1: for a source made only of non-trigger (comment) characters,
parsing succeeds and returns the completed empty tree, and the process
writes no output — but it exits with code 1, not 0: `compile_tree`
returns NULL both for a parse error and for the empty tree, and `main`'s
`if (!program) return 1;` therefore rejects the successfully parsed empty
program.  This contradicts the specified exit code 0 (and the code's own
discipline of printing a diagnostic before every failure exit), so the
exit-code part of the claim fails on the code. -/
theorem C1_comment_only_source (src : List Char)
    (h : ∀ c ∈ src, isTrigger c = false) :
    compile_tree src = Except.ok [] ∧
    (∀ (inp : List Nat) (fuel : Nat),
        main_run src inp fuel = some (1, [])) := by
  have hscan := scanList_comment src initPState h
  have hct : compile_tree src = Except.ok [] := by
    unfold compile_tree
    rw [hscan]
    rfl
  refine ⟨hct, ?_⟩
  intro inp fuel
  unfold main_run
  rw [hct]

/-- Witness for C1 at the concrete comment-only source of two spaces. -/
theorem C1_comment_only_source_witness :
    compile_tree [' ', ' '] = Except.ok [] ∧
    (∀ (inp : List Nat) (fuel : Nat),
        main_run [' ', ' '] inp fuel = some (1, [])) :=
  C1_comment_only_source [' ', ' '] (by decide)

end BF
